import Mathlib

set_option maxRecDepth 4000

/-!
A shallow embedding of the Quoridor implementation in `src/Quoridor.py`.

The Python board is `self._board`, a 10 × 10 list of lists; each entry is a
three-slot cell `[pawn, horizontal-fence, vertical-fence]`.  All board reads
and writes in the source go through Python list indexing `board[row][col]`,
which accepts indices in `[-10, 9]` (negative indices wrap) and raises
`IndexError` outside that range.  We model the board as a total function on
`Fin 10 × Fin 10` and route every access through `pyIdx`, which returns
`none` exactly when Python would raise.  Operations that may raise return
`Option`: `none` models an uncaught `IndexError` (which in the source can
only happen before any mutation of the state).

Python's `None` return value, `True` and `False` are modelled as
`Option Bool` values `none`, `some true`, `some false` where a method can
return all three.
-/

/-- The `Fence` class of the source: carries only its orientation string. -/
structure Fence where
  orientation : String
deriving DecidableEq

/-- One board cell, i.e. one inner three-element list of `self._board`:
slot 0 is the pawn (`None`, `1` or `2`), slot 1 the horizontal fence,
slot 2 the vertical fence. -/
structure Cell where
  pawn : Option Int
  hSlot : Option Fence
  vSlot : Option Fence
deriving DecidableEq

/-- The 10 × 10 board, indexed `board row col` like `self._board[row][col]`. -/
abbrev Board := Fin 10 → Fin 10 → Cell

/-- The mutable state of a `QuoridorGame` object. -/
structure Game where
  board : Board
  p1FenceCount : Int
  p2FenceCount : Int
  currentPlayer : Int
  winner : Option Int

instance : DecidableEq Game := fun a b =>
  decidable_of_iff
    (a.board = b.board ∧ a.p1FenceCount = b.p1FenceCount ∧
      a.p2FenceCount = b.p2FenceCount ∧ a.currentPlayer = b.currentPlayer ∧
      a.winner = b.winner)
    (by cases a; cases b; simp)

/-- Python list indexing on a length-10 list: indices `0..9` are direct,
`-10..-1` wrap around, anything else raises `IndexError` (`none`). -/
def pyIdx (i : Int) : Option (Fin 10) :=
  if h : 0 ≤ i ∧ i < 10 then some ⟨i.toNat, by omega⟩
  else if h2 : -10 ≤ i ∧ i < 0 then some ⟨(i + 10).toNat, by omega⟩
  else none

/-- Read `self._board[r][c]` with Python indexing semantics. -/
def getCell (g : Game) (r c : Int) : Option Cell := do
  let ri ← pyIdx r
  let ci ← pyIdx c
  pure (g.board ri ci)

/-- Functional update of one board cell. -/
def setCell (b : Board) (ri ci : Fin 10) (v : Cell) : Board :=
  fun r c => if r = ri ∧ c = ci then v else b r c

/-- Write `self._board[r][c][0] = p` with Python indexing semantics. -/
def setPawn (g : Game) (r c : Int) (p : Option Int) : Option Game := do
  let ri ← pyIdx r
  let ci ← pyIdx c
  pure { g with board := setCell g.board ri ci { g.board ri ci with pawn := p } }

/-- Write `self._board[r][c][1] = f` with Python indexing semantics. -/
def setH (g : Game) (r c : Int) (f : Option Fence) : Option Game := do
  let ri ← pyIdx r
  let ci ← pyIdx c
  pure { g with board := setCell g.board ri ci { g.board ri ci with hSlot := f } }

/-- Write `self._board[r][c][2] = f` with Python indexing semantics. -/
def setV (g : Game) (r c : Int) (f : Option Fence) : Option Game := do
  let ri ← pyIdx r
  let ci ← pyIdx c
  pure { g with board := setCell g.board ri ci { g.board ri ci with vSlot := f } }

/-- `QuoridorGame.move_pawn_success`: writes the pawn into `cur`, clears
`prev`, performs the win check (note the source's `self._winner = 0` in the
player-2 branch) and the turn flip, and returns `True`. -/
def movePawnSuccess (g : Game) (player : Option Int) (prev cur : Int × Int) :
    Option (Bool × Game) := do
  let g1 ← setPawn g cur.2 cur.1 player
  let g2 ← setPawn g1 prev.2 prev.1 none
  let g3 :=
    if player = some 1 then
      { g2 with winner := if cur.1 = 8 then some 1 else g2.winner, currentPlayer := 2 }
    else if player = some 2 then
      { g2 with winner := if cur.1 = 0 then some 0 else g2.winner, currentPlayer := 1 }
    else g2
  pure (true, g3)

/-- Line 53 of the source:
`self._board[r-1][c][0] == player and self._board[r][c][1] is None`. -/
def mpCond1 (g : Game) (player : Option Int) (c r : Int) : Option Bool := do
  let n ← getCell g (r - 1) c
  if n.pawn = player then
    let t ← getCell g r c
    pure t.hSlot.isNone
  else
    pure false

/-- Line 55 of the source:
`self._board[r+1][c][0] == player and self._board[r+1][c][1] is None`. -/
def mpCond2 (g : Game) (player : Option Int) (c r : Int) : Option Bool := do
  let n ← getCell g (r + 1) c
  if n.pawn = player then
    pure n.hSlot.isNone
  else
    pure false

/-- Line 57 of the source:
`self._board[r][c-1][0] == player and self._board[r][c][2] is None`. -/
def mpCond3 (g : Game) (player : Option Int) (c r : Int) : Option Bool := do
  let n ← getCell g r (c - 1)
  if n.pawn = player then
    let t ← getCell g r c
    pure t.vSlot.isNone
  else
    pure false

/-- Line 59 of the source:
`self._board[r][c+1][0] == player and self._board[r][c+1][2] is None`. -/
def mpCond4 (g : Game) (player : Option Int) (c r : Int) : Option Bool := do
  let n ← getCell g r (c + 1)
  if n.pawn = player then
    pure n.vSlot.isNone
  else
    pure false

/-- `QuoridorGame.move_pawn`.  The guard reproduces line 49 of the source
verbatim, including the repeated `coord[1] > 8` test where `coord[0] > 8`
was evidently intended. -/
def movePawn (g : Game) (player : Option Int) (coord : Int × Int) :
    Option (Bool × Game) :=
  let c := coord.1
  let r := coord.2
  if r < 0 ∨ r > 8 ∨ c < 0 ∨ r > 8 ∨ g.winner ≠ none ∨ player ≠ some g.currentPlayer then
    some (false, g)
  else do
    if (← mpCond1 g player c r) then movePawnSuccess g player (c, r - 1) (c, r)
    else if (← mpCond2 g player c r) then movePawnSuccess g player (c, r + 1) (c, r)
    else if (← mpCond3 g player c r) then movePawnSuccess g player (c - 1, r) (c, r)
    else if (← mpCond4 g player c r) then movePawnSuccess g player (c + 1, r) (c, r)
    else pure (false, g)

/-- `QuoridorGame.fence_placed_success`: decrements the acting player's
reserve and flips the turn; returns `True` for a non-`None` player and
Python `None` (modelled `none`) for the setup player. -/
def fencePlacedSuccess (g : Game) (player : Option Int) : Option Bool × Game :=
  if player = some 1 then
    (some true, { g with p1FenceCount := g.p1FenceCount - 1, currentPlayer := 2 })
  else if player = some 2 then
    (some true, { g with p2FenceCount := g.p2FenceCount - 1, currentPlayer := 1 })
  else if player ≠ none then (some true, g)
  else (none, g)

/-- `QuoridorGame.place_fence`.  The guard reproduces line 94 of the source
verbatim, again with the repeated `coord[1] > 8` test. -/
def placeFence (g : Game) (player : Option Int) (orient : String)
    (coord : Int × Int) : Option (Option Bool × Game) :=
  let c := coord.1
  let r := coord.2
  if r < 0 ∨ r > 8 ∨ c < 0 ∨ r > 8 ∨ g.winner ≠ none ∨
      (player ≠ none ∧ player ≠ some g.currentPlayer) then
    some (some false, g)
  else if (player = some 1 ∧ g.p1FenceCount = 0) ∨
      (player = some 2 ∧ g.p2FenceCount = 0) then
    some (some false, g)
  else if orient = "h" then do
    let t ← getCell g r c
    if t.hSlot = none then
      let g1 ← setH g r c (some ⟨orient⟩)
      pure (fencePlacedSuccess g1 player)
    else pure (some false, g)
  else if orient = "v" then do
    let t ← getCell g r c
    if t.vSlot = none then
      let g1 ← setV g r c (some ⟨orient⟩)
      pure (fencePlacedSuccess g1 player)
    else pure (some false, g)
  else some (some false, g)

/-- `QuoridorGame.is_winner`: raw equality of `self._winner` and the
queried value. -/
def isWinner (g : Game) (player : Option Int) : Bool :=
  decide (g.winner = player)

/-- The state built by the first half of `QuoridorGame.__init__`: pawns
at `board[0][4]` and `board[8][4]`, both reserves 10, player 1 to move,
no winner, before the edge-fence loop runs. -/
def startGame : Game where
  board := fun r c =>
    if r = 0 ∧ c = 4 then ⟨some 1, none, none⟩
    else if r = 8 ∧ c = 4 then ⟨some 2, none, none⟩
    else ⟨none, none, none⟩
  p1FenceCount := 10
  p2FenceCount := 10
  currentPlayer := 1
  winner := none

/-- One setup call `self.place_fence(None, orient, (c, r))`; the result value
is discarded by `__init__`, only the state matters (setup calls never raise). -/
def fenceStep (g : Game) (orient : String) (c r : Int) : Game :=
  match placeFence g none orient (c, r) with
  | some (_, g2) => g2
  | none => g

/-- The body of the `__init__` double loop for one `(column, row)` pair. -/
def setupCell (g : Game) (col row : Int) : Game :=
  let g1 := if col = 0 ∨ col = 9 then fenceStep g "v" col row else g
  if row = 0 ∨ row = 9 then fenceStep g1 "h" col row else g1

/-- The state of a freshly constructed `QuoridorGame()`. -/
def initialGame : Game :=
  (List.range 10).foldl
    (fun g col => (List.range 10).foldl (fun g2 row => setupCell g2 col row) g)
    startGame

/-- Closed form of `initialGame`, verified against the fold below: the
row-9 horizontal setup fences are rejected by the bounds guard of
`place_fence`, while the column-9 vertical ones are stored (for rows 0–8). -/
def initialGameX : Game where
  board := fun r c =>
    { pawn := if r = 0 ∧ c = 4 then some 1 else if r = 8 ∧ c = 4 then some 2 else none
      hSlot := if r = 0 then some ⟨"h"⟩ else none
      vSlot := if (c = 0 ∨ c = 9) ∧ r ≠ 9 then some ⟨"v"⟩ else none }
  p1FenceCount := 10
  p2FenceCount := 10
  currentPlayer := 1
  winner := none

theorem initialGame_eq : initialGame = initialGameX := by decide

/-- One public call on the game object: either `move_pawn` or `place_fence`
with arbitrary arguments. -/
inductive Act where
  | move (player : Option Int) (coord : Int × Int)
  | fence (player : Option Int) (orient : String) (coord : Int × Int)

/-- The state after one call.  An uncaught `IndexError` (`none`) happens,
when it happens, before any mutation, so the state is unchanged then. -/
def applyAct (g : Game) : Act → Game
  | Act.move p c =>
      match movePawn g p c with
      | some (_, g2) => g2
      | none => g
  | Act.fence p o c =>
      match placeFence g p o c with
      | some (_, g2) => g2
      | none => g

/-- The state after a sequence of public calls on a fresh game. -/
def run (g : Game) (acts : List Act) : Game :=
  acts.foldl applyAct g

/-- Number of board cells whose pawn slot holds player `p`. -/
def pawnCount (g : Game) (p : Int) : Nat :=
  (Finset.univ.filter
    (fun rc : Fin 10 × Fin 10 => (g.board rc.1 rc.2).pawn = some p)).card

/-! ### Basic lemmas about indexing and cell updates -/

theorem pyIdx_of_nonneg {i : Int} (h1 : 0 ≤ i) (h2 : i < 10) :
    pyIdx i = some ⟨i.toNat, by omega⟩ := by
  unfold pyIdx
  rw [dif_pos ⟨h1, h2⟩]

theorem pyIdx_of_neg {i : Int} (h1 : -10 ≤ i) (h2 : i < 0) :
    pyIdx i = some ⟨(i + 10).toNat, by omega⟩ := by
  unfold pyIdx
  rw [dif_neg (by omega), dif_pos ⟨h1, h2⟩]

theorem pyIdx_val {i : Int} {a : Fin 10} (h : pyIdx i = some a) :
    (0 ≤ i ∧ i < 10 ∧ (a : Nat) = i.toNat) ∨
      (-10 ≤ i ∧ i < 0 ∧ (a : Nat) = (i + 10).toNat) := by
  unfold pyIdx at h
  split_ifs at h with h1 h2
  · cases h
    exact Or.inl ⟨h1.1, h1.2, rfl⟩
  · cases h
    exact Or.inr ⟨h2.1, h2.2, rfl⟩

theorem setCell_apply (b : Board) (ri ci : Fin 10) (v : Cell) (x y : Fin 10) :
    setCell b ri ci v x y = if x = ri ∧ y = ci then v else b x y := rfl

theorem getCell_eq_some {g : Game} {r c : Int} {ri ci : Fin 10}
    (hr : pyIdx r = some ri) (hc : pyIdx c = some ci) :
    getCell g r c = some (g.board ri ci) := by
  simp [getCell, hr, hc]

theorem getCell_some {g : Game} {r c : Int} {t : Cell}
    (h : getCell g r c = some t) :
    ∃ ri ci, pyIdx r = some ri ∧ pyIdx c = some ci ∧ t = g.board ri ci := by
  simp only [getCell, Option.bind_eq_bind, Option.bind_eq_some] at h
  obtain ⟨ri, hr, ci, hc, ht⟩ := h
  exact ⟨ri, ci, hr, hc, (Option.some.injEq _ _ ▸ ht).symm⟩

theorem setPawn_some {g : Game} {r c : Int} {p : Option Int} {g2 : Game}
    (h : setPawn g r c p = some g2) :
    ∃ ri ci, pyIdx r = some ri ∧ pyIdx c = some ci ∧
      g2 = { g with board := setCell g.board ri ci { g.board ri ci with pawn := p } } := by
  simp only [setPawn, Option.bind_eq_bind, Option.bind_eq_some] at h
  obtain ⟨ri, hr, ci, hc, ht⟩ := h
  exact ⟨ri, ci, hr, hc, (Option.some.injEq _ _ ▸ ht).symm⟩

theorem setPawn_eq {g : Game} {r c : Int} {p : Option Int} {ri ci : Fin 10}
    (hr : pyIdx r = some ri) (hc : pyIdx c = some ci) :
    setPawn g r c p =
      some { g with board := setCell g.board ri ci { g.board ri ci with pawn := p } } := by
  simp [setPawn, hr, hc]

theorem setH_some {g : Game} {r c : Int} {f : Option Fence} {g2 : Game}
    (h : setH g r c f = some g2) :
    ∃ ri ci, pyIdx r = some ri ∧ pyIdx c = some ci ∧
      g2 = { g with board := setCell g.board ri ci { g.board ri ci with hSlot := f } } := by
  simp only [setH, Option.bind_eq_bind, Option.bind_eq_some] at h
  obtain ⟨ri, hr, ci, hc, ht⟩ := h
  exact ⟨ri, ci, hr, hc, (Option.some.injEq _ _ ▸ ht).symm⟩

theorem setV_some {g : Game} {r c : Int} {f : Option Fence} {g2 : Game}
    (h : setV g r c f = some g2) :
    ∃ ri ci, pyIdx r = some ri ∧ pyIdx c = some ci ∧
      g2 = { g with board := setCell g.board ri ci { g.board ri ci with vSlot := f } } := by
  simp only [setV, Option.bind_eq_bind, Option.bind_eq_some] at h
  obtain ⟨ri, hr, ci, hc, ht⟩ := h
  exact ⟨ri, ci, hr, hc, (Option.some.injEq _ _ ▸ ht).symm⟩

/-! ### Characterizations of the two helper methods -/

theorem fencePlacedSuccess_fst (g : Game) (p : Option Int) :
    (fencePlacedSuccess g p).1 = if p = none then none else some true := by
  unfold fencePlacedSuccess
  split_ifs <;> simp_all

theorem fencePlacedSuccess_snd (g : Game) (p : Option Int) :
    (fencePlacedSuccess g p).2 =
      { g with
        p1FenceCount := if p = some 1 then g.p1FenceCount - 1 else g.p1FenceCount
        p2FenceCount := if p = some 2 then g.p2FenceCount - 1 else g.p2FenceCount
        currentPlayer :=
          if p = some 1 then 2 else if p = some 2 then 1 else g.currentPlayer } := by
  unfold fencePlacedSuccess
  split_ifs <;> simp_all

theorem movePawnSuccess_parts {g : Game} {p : Option Int} {prev cur : Int × Int}
    {b : Bool} {gf : Game} (h : movePawnSuccess g p prev cur = some (b, gf)) :
    b = true ∧ gf.p1FenceCount = g.p1FenceCount ∧ gf.p2FenceCount = g.p2FenceCount ∧
    gf.currentPlayer =
      (if p = some 1 then 2 else if p = some 2 then 1 else g.currentPlayer) ∧
    ∃ ti ci ri pi, pyIdx cur.2 = some ti ∧ pyIdx cur.1 = some ci ∧
      pyIdx prev.2 = some ri ∧ pyIdx prev.1 = some pi ∧
      gf.board = setCell (setCell g.board ti ci { g.board ti ci with pawn := p }) ri pi
        { setCell g.board ti ci { g.board ti ci with pawn := p } ri pi with pawn := none } := by
  simp only [movePawnSuccess, Option.bind_eq_bind, Option.bind_eq_some] at h
  obtain ⟨g1, hg1, g2, hg2, hpure⟩ := h
  obtain ⟨ti, ci, hti, hci, hg1e⟩ := setPawn_some hg1
  subst hg1e
  obtain ⟨ri, pi, hri, hpi, hg2e⟩ := setPawn_some hg2
  subst hg2e
  simp only [Option.pure_def, Option.some.injEq, Prod.mk.injEq] at hpure
  obtain ⟨hb, hgf⟩ := hpure
  subst hb
  refine ⟨rfl, ?_, ?_, ?_, ti, ci, ri, pi, hti, hci, hri, hpi, ?_⟩ <;>
    subst hgf <;>
    by_cases hp1 : p = some 1 <;> by_cases hp2 : p = some 2 <;>
    simp_all

theorem movePawnSuccess_total {g : Game} {p : Option Int} {prev cur : Int × Int}
    {ti ci ri pi : Fin 10}
    (hti : pyIdx cur.2 = some ti) (hci : pyIdx cur.1 = some ci)
    (hri : pyIdx prev.2 = some ri) (hpi : pyIdx prev.1 = some pi) :
    ∃ gf, movePawnSuccess g p prev cur = some (true, gf) := by
  simp only [movePawnSuccess, setPawn_eq hti hci, setPawn_eq hri hpi,
    Option.some_bind, Option.pure_def]
  exact ⟨_, rfl⟩

/-! ### The four adjacency conditions of `move_pawn` -/

theorem mpCond1_eq {g : Game} {p : Option Int} {c r : Int} {ni ci ti : Fin 10}
    (h1 : pyIdx (r - 1) = some ni) (h2 : pyIdx c = some ci)
    (h3 : pyIdx r = some ti) :
    mpCond1 g p c r =
      some (decide ((g.board ni ci).pawn = p) && (g.board ti ci).hSlot.isNone) := by
  simp only [mpCond1, getCell_eq_some h1 h2, getCell_eq_some h3 h2, Option.some_bind]
  by_cases hp : (g.board ni ci).pawn = p <;> simp [hp]

theorem mpCond2_eq {g : Game} {p : Option Int} {c r : Int} {ni ci : Fin 10}
    (h1 : pyIdx (r + 1) = some ni) (h2 : pyIdx c = some ci) :
    mpCond2 g p c r =
      some (decide ((g.board ni ci).pawn = p) && (g.board ni ci).hSlot.isNone) := by
  simp only [mpCond2, getCell_eq_some h1 h2, Option.some_bind]
  by_cases hp : (g.board ni ci).pawn = p <;> simp [hp]

theorem mpCond3_eq {g : Game} {p : Option Int} {c r : Int} {ni ci ti : Fin 10}
    (h1 : pyIdx (c - 1) = some ni) (h2 : pyIdx r = some ti)
    (h3 : pyIdx c = some ci) :
    mpCond3 g p c r =
      some (decide ((g.board ti ni).pawn = p) && (g.board ti ci).vSlot.isNone) := by
  simp only [mpCond3, getCell_eq_some h2 h1, getCell_eq_some h2 h3, Option.some_bind]
  by_cases hp : (g.board ti ni).pawn = p <;> simp [hp]

theorem mpCond4_eq {g : Game} {p : Option Int} {c r : Int} {ni ti : Fin 10}
    (h1 : pyIdx (c + 1) = some ni) (h2 : pyIdx r = some ti) :
    mpCond4 g p c r =
      some (decide ((g.board ti ni).pawn = p) && (g.board ti ni).vSlot.isNone) := by
  simp only [mpCond4, getCell_eq_some h2 h1, Option.some_bind]
  by_cases hp : (g.board ti ni).pawn = p <;> simp [hp]

theorem mpCond1_true {g : Game} {p : Option Int} {c r : Int}
    (h : mpCond1 g p c r = some true) :
    ∃ ni ci ti, pyIdx (r - 1) = some ni ∧ pyIdx c = some ci ∧ pyIdx r = some ti ∧
      (g.board ni ci).pawn = p ∧ (g.board ti ci).hSlot = none := by
  simp only [mpCond1, Option.bind_eq_bind, Option.bind_eq_some] at h
  obtain ⟨n, hn, hif⟩ := h
  obtain ⟨ni, ci, hni, hci, hne⟩ := getCell_some hn
  subst hne
  by_cases hp : (g.board ni ci).pawn = p
  · rw [if_pos hp] at hif
    simp only [Option.bind_eq_some] at hif
    obtain ⟨t, ht, hpure⟩ := hif
    obtain ⟨ti, ci2, hti, hci2, hte⟩ := getCell_some ht
    subst hte
    rw [hci] at hci2
    cases hci2
    simp only [Option.pure_def, Option.some.injEq] at hpure
    exact ⟨ni, ci, ti, hni, hci, hti, hp, Option.isNone_iff_eq_none.mp hpure⟩
  · rw [if_neg hp] at hif
    simp at hif

theorem mpCond2_true {g : Game} {p : Option Int} {c r : Int}
    (h : mpCond2 g p c r = some true) :
    ∃ ni ci, pyIdx (r + 1) = some ni ∧ pyIdx c = some ci ∧
      (g.board ni ci).pawn = p ∧ (g.board ni ci).hSlot = none := by
  simp only [mpCond2, Option.bind_eq_bind, Option.bind_eq_some] at h
  obtain ⟨n, hn, hif⟩ := h
  obtain ⟨ni, ci, hni, hci, hne⟩ := getCell_some hn
  subst hne
  by_cases hp : (g.board ni ci).pawn = p
  · rw [if_pos hp] at hif
    simp only [Option.pure_def, Option.some.injEq] at hif
    exact ⟨ni, ci, hni, hci, hp, Option.isNone_iff_eq_none.mp hif⟩
  · rw [if_neg hp] at hif
    simp at hif

theorem mpCond3_true {g : Game} {p : Option Int} {c r : Int}
    (h : mpCond3 g p c r = some true) :
    ∃ ni ti ci, pyIdx (c - 1) = some ni ∧ pyIdx r = some ti ∧ pyIdx c = some ci ∧
      (g.board ti ni).pawn = p ∧ (g.board ti ci).vSlot = none := by
  simp only [mpCond3, Option.bind_eq_bind, Option.bind_eq_some] at h
  obtain ⟨n, hn, hif⟩ := h
  obtain ⟨ti, ni, hti, hni, hne⟩ := getCell_some hn
  subst hne
  by_cases hp : (g.board ti ni).pawn = p
  · rw [if_pos hp] at hif
    simp only [Option.bind_eq_some] at hif
    obtain ⟨t, ht, hpure⟩ := hif
    obtain ⟨ti2, ci, hti2, hci, hte⟩ := getCell_some ht
    subst hte
    rw [hti] at hti2
    cases hti2
    simp only [Option.pure_def, Option.some.injEq] at hpure
    exact ⟨ni, ti, ci, hni, hti, hci, hp, Option.isNone_iff_eq_none.mp hpure⟩
  · rw [if_neg hp] at hif
    simp at hif

theorem mpCond4_true {g : Game} {p : Option Int} {c r : Int}
    (h : mpCond4 g p c r = some true) :
    ∃ ni ti, pyIdx (c + 1) = some ni ∧ pyIdx r = some ti ∧
      (g.board ti ni).pawn = p ∧ (g.board ti ni).vSlot = none := by
  simp only [mpCond4, Option.bind_eq_bind, Option.bind_eq_some] at h
  obtain ⟨n, hn, hif⟩ := h
  obtain ⟨ti, ni, hti, hni, hne⟩ := getCell_some hn
  subst hne
  by_cases hp : (g.board ti ni).pawn = p
  · rw [if_pos hp] at hif
    simp only [Option.pure_def, Option.some.injEq] at hif
    exact ⟨ni, ti, hni, hti, hp, Option.isNone_iff_eq_none.mp hif⟩
  · rw [if_neg hp] at hif
    simp at hif


/-! ### Case analyses of the two public mutators -/

theorem movePawn_guard {g : Game} {p : Option Int} {coord : Int × Int}
    (h : coord.2 < 0 ∨ coord.2 > 8 ∨ coord.1 < 0 ∨ coord.2 > 8 ∨
      g.winner ≠ none ∨ p ≠ some g.currentPlayer) :
    movePawn g p coord = some (false, g) := by
  simp only [movePawn]
  rw [if_pos h]

theorem placeFence_guard {g : Game} {p : Option Int} {o : String}
    {coord : Int × Int}
    (h : coord.2 < 0 ∨ coord.2 > 8 ∨ coord.1 < 0 ∨ coord.2 > 8 ∨
      g.winner ≠ none ∨ (p ≠ none ∧ p ≠ some g.currentPlayer)) :
    placeFence g p o coord = some (some false, g) := by
  simp only [placeFence]
  rw [if_pos h]

theorem placeFence_reserve_zero {g : Game} {p : Option Int} {o : String}
    {coord : Int × Int}
    (h : (p = some 1 ∧ g.p1FenceCount = 0) ∨ (p = some 2 ∧ g.p2FenceCount = 0)) :
    placeFence g p o coord = some (some false, g) := by
  simp only [placeFence]
  split_ifs with h1
  · rfl
  · rfl

theorem movePawn_some {g : Game} {p : Option Int} {c r : Int} {b : Bool} {gf : Game}
    (h : movePawn g p (c, r) = some (b, gf)) :
    (b = false ∧ gf = g) ∨
    (b = true ∧
      (0 ≤ r ∧ r ≤ 8 ∧ 0 ≤ c ∧ g.winner = none ∧ p = some g.currentPlayer) ∧
      ∃ prev,
        ((prev = (c, r - 1) ∧ mpCond1 g p c r = some true) ∨
         (prev = (c, r + 1) ∧ mpCond2 g p c r = some true) ∨
         (prev = (c - 1, r) ∧ mpCond3 g p c r = some true) ∨
         (prev = (c + 1, r) ∧ mpCond4 g p c r = some true)) ∧
        movePawnSuccess g p prev (c, r) = some (true, gf)) := by
  simp only [movePawn] at h
  split_ifs at h with hg
  · simp only [Option.some.injEq, Prod.mk.injEq] at h
    exact Or.inl ⟨h.1.symm, h.2.symm⟩
  · push_neg at hg
    obtain ⟨hr0, hr8, hc0, _, hw, hp⟩ := hg
    simp only [Option.bind_eq_bind, Option.bind_eq_some] at h
    obtain ⟨b1, hb1, h⟩ := h
    cases b1
    · simp only [Bool.false_eq_true, if_false, Option.bind_eq_some] at h
      obtain ⟨b2, hb2, h⟩ := h
      cases b2
      · simp only [Bool.false_eq_true, if_false, Option.bind_eq_some] at h
        obtain ⟨b3, hb3, h⟩ := h
        cases b3
        · simp only [Bool.false_eq_true, if_false, Option.bind_eq_some] at h
          obtain ⟨b4, hb4, h⟩ := h
          cases b4
          · simp only [Bool.false_eq_true, if_false, Option.pure_def,
              Option.some.injEq, Prod.mk.injEq] at h
            exact Or.inl ⟨h.1.symm, h.2.symm⟩
          · rw [if_pos rfl] at h
            have hparts := movePawnSuccess_parts h
            refine Or.inr ⟨hparts.1, ⟨by omega, by omega, hc0, hw, hp⟩,
              (c + 1, r), Or.inr (Or.inr (Or.inr ⟨rfl, hb4⟩)), ?_⟩
            rw [h, hparts.1]
        · rw [if_pos rfl] at h
          have hparts := movePawnSuccess_parts h
          refine Or.inr ⟨hparts.1, ⟨by omega, by omega, hc0, hw, hp⟩,
            (c - 1, r), Or.inr (Or.inr (Or.inl ⟨rfl, hb3⟩)), ?_⟩
          rw [h, hparts.1]
      · rw [if_pos rfl] at h
        have hparts := movePawnSuccess_parts h
        refine Or.inr ⟨hparts.1, ⟨by omega, by omega, hc0, hw, hp⟩,
          (c, r + 1), Or.inr (Or.inl ⟨rfl, hb2⟩), ?_⟩
        rw [h, hparts.1]
    · rw [if_pos rfl] at h
      have hparts := movePawnSuccess_parts h
      refine Or.inr ⟨hparts.1, ⟨by omega, by omega, hc0, hw, hp⟩,
        (c, r - 1), Or.inl ⟨rfl, hb1⟩, ?_⟩
      rw [h, hparts.1]

theorem placeFence_some {g : Game} {p : Option Int} {o : String} {c r : Int}
    {res : Option Bool} {gf : Game}
    (h : placeFence g p o (c, r) = some (res, gf)) :
    (res = some false ∧ gf = g) ∨
    ((0 ≤ r ∧ r ≤ 8 ∧ 0 ≤ c ∧ g.winner = none ∧
        (p = none ∨ p = some g.currentPlayer) ∧
        ¬(p = some 1 ∧ g.p1FenceCount = 0) ∧ ¬(p = some 2 ∧ g.p2FenceCount = 0)) ∧
      res = (if p = none then none else some true) ∧
      ∃ ri ci cell2,
        pyIdx r = some ri ∧ pyIdx c = some ci ∧
        ((o = "h" ∧ (g.board ri ci).hSlot = none ∧
            cell2 = { g.board ri ci with hSlot := some ⟨o⟩ }) ∨
         (o = "v" ∧ (g.board ri ci).vSlot = none ∧
            cell2 = { g.board ri ci with vSlot := some ⟨o⟩ })) ∧
        gf = (fencePlacedSuccess { g with board := setCell g.board ri ci cell2 } p).2) := by
  simp only [placeFence] at h
  split_ifs at h with h1 h2 h3 h4
  · simp only [Option.some.injEq, Prod.mk.injEq] at h
    exact Or.inl ⟨h.1.symm, h.2.symm⟩
  · simp only [Option.some.injEq, Prod.mk.injEq] at h
    exact Or.inl ⟨h.1.symm, h.2.symm⟩
  · -- orient = "h"
    push_neg at h1
    obtain ⟨hr0, hr8, hc0, _, hw, hturn⟩ := h1
    simp only [Option.bind_eq_bind, Option.bind_eq_some] at h
    obtain ⟨t, ht, hif⟩ := h
    obtain ⟨ri, ci, hri, hci, hte⟩ := getCell_some ht
    subst hte
    by_cases hslot : (g.board ri ci).hSlot = none
    · rw [if_pos hslot] at hif
      simp only [Option.bind_eq_some] at hif
      obtain ⟨g1, hg1, hpure⟩ := hif
      obtain ⟨ri2, ci2, hri2, hci2, hg1e⟩ := setH_some hg1
      rw [hri, Option.some.injEq] at hri2
      rw [hci, Option.some.injEq] at hci2
      subst hri2
      subst hci2
      subst hg1e
      simp only [Option.pure_def, Option.some.injEq] at hpure
      have hres := congrArg Prod.fst hpure
      have hgf := congrArg Prod.snd hpure
      dsimp only at hres hgf
      rw [fencePlacedSuccess_fst] at hres
      refine Or.inr ⟨⟨by omega, by omega, hc0, hw, ?_, by tauto, by tauto⟩, hres.symm, ri, ci,
        { g.board ri ci with hSlot := some ⟨o⟩ }, hri, hci, Or.inl ⟨h3, hslot, rfl⟩, hgf.symm⟩
      by_cases hpn : p = none
      · exact Or.inl hpn
      · exact Or.inr (hturn hpn)
    · rw [if_neg hslot] at hif
      simp only [Option.pure_def, Option.some.injEq, Prod.mk.injEq] at hif
      exact Or.inl ⟨hif.1.symm, hif.2.symm⟩
  · -- orient = "v"
    push_neg at h1
    obtain ⟨hr0, hr8, hc0, _, hw, hturn⟩ := h1
    simp only [Option.bind_eq_bind, Option.bind_eq_some] at h
    obtain ⟨t, ht, hif⟩ := h
    obtain ⟨ri, ci, hri, hci, hte⟩ := getCell_some ht
    subst hte
    by_cases hslot : (g.board ri ci).vSlot = none
    · rw [if_pos hslot] at hif
      simp only [Option.bind_eq_some] at hif
      obtain ⟨g1, hg1, hpure⟩ := hif
      obtain ⟨ri2, ci2, hri2, hci2, hg1e⟩ := setV_some hg1
      rw [hri, Option.some.injEq] at hri2
      rw [hci, Option.some.injEq] at hci2
      subst hri2
      subst hci2
      subst hg1e
      simp only [Option.pure_def, Option.some.injEq] at hpure
      have hres := congrArg Prod.fst hpure
      have hgf := congrArg Prod.snd hpure
      dsimp only at hres hgf
      rw [fencePlacedSuccess_fst] at hres
      refine Or.inr ⟨⟨by omega, by omega, hc0, hw, ?_, by tauto, by tauto⟩, hres.symm, ri, ci,
        { g.board ri ci with vSlot := some ⟨o⟩ }, hri, hci, Or.inr ⟨h4, hslot, rfl⟩, hgf.symm⟩
      by_cases hpn : p = none
      · exact Or.inl hpn
      · exact Or.inr (hturn hpn)
    · rw [if_neg hslot] at hif
      simp only [Option.pure_def, Option.some.injEq, Prod.mk.injEq] at hif
      exact Or.inl ⟨hif.1.symm, hif.2.symm⟩
  · simp only [Option.some.injEq, Prod.mk.injEq] at h
    exact Or.inl ⟨h.1.symm, h.2.symm⟩

/-! ### The reachable-state invariant -/

/-- Invariant of every reachable state: pawns sit only on the playable
9 × 9 part; the column-9 sentinel vertical fences (rows 0–8) stay in place;
any pawn value occupies at most one cell; the turn holder is 1 or 2. -/
def GameInv (g : Game) : Prop :=
  (∀ r c : Fin 10, (g.board r c).pawn ≠ none → (r : Nat) ≤ 8 ∧ (c : Nat) ≤ 8) ∧
  (∀ r : Fin 10, (r : Nat) ≤ 8 → (g.board r ⟨9, by omega⟩).vSlot ≠ none) ∧
  (∀ r c r2 c2 : Fin 10, (g.board r c).pawn ≠ none →
    (g.board r c).pawn = (g.board r2 c2).pawn → r = r2 ∧ c = c2) ∧
  (g.currentPlayer = 1 ∨ g.currentPlayer = 2)

theorem inv_initial : GameInv initialGame := by
  rw [initialGame_eq]
  unfold GameInv
  decide

theorem inv_placeFence {g : Game} {p : Option Int} {o : String} {c r : Int}
    {res : Option Bool} {gf : Game} (hInv : GameInv g)
    (h : placeFence g p o (c, r) = some (res, gf)) : GameInv gf := by
  rcases placeFence_some h with ⟨_, rfl⟩ | ⟨_, _, ri, ci, cell2, hri, hci, hcell, hgf⟩
  · exact hInv
  obtain ⟨hplay, hsent, huniq, hcur⟩ := hInv
  have hpawn : ∀ x y, (setCell g.board ri ci cell2 x y).pawn = (g.board x y).pawn := by
    intro x y
    rw [setCell_apply]
    split_ifs with hxy
    · obtain ⟨rfl, rfl⟩ := hxy
      rcases hcell with ⟨_, _, rfl⟩ | ⟨_, _, rfl⟩ <;> rfl
    · rfl
  have hv : ∀ x y, (g.board x y).vSlot ≠ none →
      (setCell g.board ri ci cell2 x y).vSlot ≠ none := by
    intro x y hne
    rw [setCell_apply]
    split_ifs with hxy
    · obtain ⟨rfl, rfl⟩ := hxy
      rcases hcell with ⟨_, _, rfl⟩ | ⟨_, _, rfl⟩
      · exact hne
      · simp
    · exact hne
  subst hgf
  rw [fencePlacedSuccess_snd]
  refine ⟨?_, ?_, ?_, ?_⟩
  · intro x y hb
    dsimp only at hb ⊢
    rw [hpawn] at hb
    exact hplay x y hb
  · intro x hx
    dsimp only
    exact hv x ⟨9, by omega⟩ (hsent x hx)
  · intro x y x2 y2 hb heq
    dsimp only at hb heq
    rw [hpawn] at hb
    rw [hpawn, hpawn] at heq
    exact huniq x y x2 y2 hb heq
  · dsimp only
    split_ifs
    · exact Or.inr rfl
    · exact Or.inl rfl
    · exact hcur

theorem inv_movePawn {g : Game} {p : Option Int} {c r : Int} {b : Bool}
    {gf : Game} (hInv : GameInv g) (h : movePawn g p (c, r) = some (b, gf)) :
    GameInv gf := by
  rcases movePawn_some h with ⟨_, rfl⟩ | ⟨_, hguard, prev, hbr, hmps⟩
  · exact hInv
  obtain ⟨hr0, hr8, hc0, hw, hp⟩ := hguard
  obtain ⟨_, _, _, hcurf, ti, ci, ri, pi, hti, hci, hri, hpi, hboard⟩ :=
    movePawnSuccess_parts hmps
  dsimp only at hti hci
  obtain ⟨hplay, hsent, huniq, hcur⟩ := hInv
  have hpne : p ≠ none := by rw [hp]; simp
  have hti_le : (ti : Nat) ≤ 8 := by
    rcases pyIdx_val hti with ⟨_, _, hv⟩ | ⟨_, hneg, _⟩ <;> omega
  have hci_lt : (ci : Nat) ≤ 9 := by omega
  have hfacts : (g.board ri pi).pawn = p ∧ (ci : Nat) ≤ 8 := by
    rcases hbr with ⟨hprev, hcond⟩ | ⟨hprev, hcond⟩ | ⟨hprev, hcond⟩ | ⟨hprev, hcond⟩ <;>
      subst hprev <;> dsimp only at hri hpi
    · obtain ⟨ni, ci2, ti2, hni, hci2, hti2, hpw, _⟩ := mpCond1_true hcond
      rw [hni, Option.some.injEq] at hri
      subst hri
      rw [hci, Option.some.injEq] at hpi
      subst hpi
      rw [hci, Option.some.injEq] at hci2
      subst hci2
      refine ⟨hpw, ?_⟩
      exact (hplay ni ci (by rw [hpw]; exact hpne)).2
    · obtain ⟨ni, ci2, hni, hci2, hpw, _⟩ := mpCond2_true hcond
      rw [hni, Option.some.injEq] at hri
      subst hri
      rw [hci, Option.some.injEq] at hpi
      subst hpi
      rw [hci, Option.some.injEq] at hci2
      subst hci2
      refine ⟨hpw, ?_⟩
      exact (hplay ni ci (by rw [hpw]; exact hpne)).2
    · obtain ⟨ni, ti2, ci2, hni, hti2, hci2, hpw, hfence⟩ := mpCond3_true hcond
      rw [hti, Option.some.injEq] at hri
      subst hri
      rw [hni, Option.some.injEq] at hpi
      subst hpi
      rw [hti, Option.some.injEq] at hti2
      subst hti2
      rw [hci, Option.some.injEq] at hci2
      subst hci2
      refine ⟨hpw, ?_⟩
      by_contra hx
      have hci9 : ci = ⟨9, by omega⟩ := by
        apply Fin.ext
        simp only []
        omega
      rw [hci9] at hfence
      exact (hsent ti hti_le) hfence
    · obtain ⟨ni, ti2, hni, hti2, hpw, _⟩ := mpCond4_true hcond
      rw [hti, Option.some.injEq] at hri
      subst hri
      rw [hni, Option.some.injEq] at hpi
      subst hpi
      rw [hti, Option.some.injEq] at hti2
      subst hti2
      have hple : (ni : Nat) ≤ 8 := (hplay ti ni (by rw [hpw]; exact hpne)).2
      have hniv : (ni : Nat) = (c + 1).toNat := by
        rcases pyIdx_val hni with ⟨_, _, hv⟩ | ⟨_, hneg, _⟩ <;> omega
      have hciv : (ci : Nat) = c.toNat := by
        rcases pyIdx_val hci with ⟨_, _, hv⟩ | ⟨_, hneg, _⟩ <;> omega
      exact ⟨hpw, by omega⟩
  obtain ⟨hpawnfact, hci_le⟩ := hfacts
  have hB2pawn : ∀ x y, (gf.board x y).pawn =
      (if x = ri ∧ y = pi then none
       else if x = ti ∧ y = ci then p else (g.board x y).pawn) := by
    intro x y
    rw [hboard, setCell_apply]
    split_ifs with h1 h2
    · rfl
    · rw [setCell_apply, if_pos h2]
    · rw [setCell_apply, if_neg h2]
  have hB2v : ∀ x y, (gf.board x y).vSlot = (g.board x y).vSlot := by
    intro x y
    rw [hboard, setCell_apply]
    split_ifs with h1
    · obtain ⟨rfl, rfl⟩ := h1
      rw [setCell_apply]
      split_ifs with h2
      · obtain ⟨rfl, rfl⟩ := h2
        rfl
      · rfl
    · rw [setCell_apply]
      split_ifs with h2
      · obtain ⟨rfl, rfl⟩ := h2
        rfl
      · rfl
  refine ⟨?_, ?_, ?_, ?_⟩
  · intro x y hb
    rw [hB2pawn] at hb
    split_ifs at hb with h1 h2
    · exact absurd rfl hb
    · obtain ⟨rfl, rfl⟩ := h2
      exact ⟨hti_le, hci_le⟩
    · exact hplay x y hb
  · intro x hx
    rw [hB2v]
    exact hsent x hx
  · intro x y x2 y2 hne heq
    rw [hB2pawn x y] at hne heq
    rw [hB2pawn x2 y2] at heq
    by_cases e1 : x = ri ∧ y = pi
    · rw [if_pos e1] at hne
      exact absurd rfl hne
    · rw [if_neg e1] at hne heq
      by_cases e2 : x = ti ∧ y = ci
      · rw [if_pos e2] at hne heq
        by_cases e3 : x2 = ri ∧ y2 = pi
        · rw [if_pos e3] at heq
          exact absurd heq hne
        · rw [if_neg e3] at heq
          by_cases e4 : x2 = ti ∧ y2 = ci
          · obtain ⟨rfl, rfl⟩ := e2
            obtain ⟨rfl, rfl⟩ := e4
            exact ⟨rfl, rfl⟩
          · rw [if_neg e4] at heq
            have h5 := huniq ri pi x2 y2 (by rw [hpawnfact]; exact hne)
              (by rw [hpawnfact]; exact heq)
            exact absurd ⟨h5.1.symm, h5.2.symm⟩ e3
      · rw [if_neg e2] at hne heq
        by_cases e3 : x2 = ri ∧ y2 = pi
        · rw [if_pos e3] at heq
          exact absurd heq hne
        · rw [if_neg e3] at heq
          by_cases e4 : x2 = ti ∧ y2 = ci
          · rw [if_pos e4] at heq
            have h5 := huniq x y ri pi hne (heq.trans hpawnfact.symm)
            exact absurd ⟨h5.1, h5.2⟩ e1
          · rw [if_neg e4] at heq
            exact huniq x y x2 y2 hne heq
  · rw [hcurf]
    rcases hcur with hc1 | hc2
    · rw [hp, hc1]
      simp
    · rw [hp, hc2]
      norm_num

theorem inv_applyAct {g : Game} {a : Act} (hInv : GameInv g) :
    GameInv (applyAct g a) := by
  cases a with
  | move p coord =>
    obtain ⟨c, r⟩ := coord
    dsimp only [applyAct]
    cases hm : movePawn g p (c, r) with
    | none => exact hInv
    | some x =>
      obtain ⟨b, gf⟩ := x
      exact inv_movePawn hInv hm
  | fence p o coord =>
    obtain ⟨c, r⟩ := coord
    dsimp only [applyAct]
    cases hm : placeFence g p o (c, r) with
    | none => exact hInv
    | some x =>
      obtain ⟨res, gf⟩ := x
      exact inv_placeFence hInv hm

theorem inv_run {g : Game} (acts : List Act) (hInv : GameInv g) :
    GameInv (run g acts) := by
  induction acts generalizing g with
  | nil => exact hInv
  | cons a rest ih => exact ih (inv_applyAct hInv)

theorem inv_reachable (acts : List Act) : GameInv (run initialGame acts) :=
  inv_run acts inv_initial

/-! ### The spec-side description of a legal pawn move (for claim C9) -/

/-- Total cell read at `(column x, row y)`, spec-level: out-of-range reads
give an empty cell (only used on indices where Python cannot raise). -/
def cellI (g : Game) (x y : Int) : Cell :=
  match getCell g y x with
  | some t => t
  | none => ⟨none, none, none⟩

/-- Spec wording, §4.1: the player's pawn occupies the in-bounds cell
`(x, y)`. -/
def pawnAtSpec (g : Game) (pl : Int) (x y : Int) : Prop :=
  0 ≤ x ∧ x ≤ 8 ∧ 0 ≤ y ∧ y ≤ 8 ∧ (cellI g x y).pawn = some pl

/-- Spec wording, §4.1: the pawn of `pl` stands on a cell orthogonally
adjacent to the target `(c, r)` and the edge between the two cells carries
no fence (using the source's edge-to-slot convention: the horizontal slot
of the southern cell guards a vertical step, the vertical slot of the
eastern cell guards a horizontal step). -/
def specMoveAllowed (g : Game) (pl : Int) (c r : Int) : Prop :=
  (pawnAtSpec g pl c (r - 1) ∧ (cellI g c r).hSlot = none) ∨
  (pawnAtSpec g pl c (r + 1) ∧ (cellI g c (r + 1)).hSlot = none) ∨
  (pawnAtSpec g pl (c - 1) r ∧ (cellI g c r).vSlot = none) ∨
  (pawnAtSpec g pl (c + 1) r ∧ (cellI g (c + 1) r).vSlot = none)

theorem cellI_eq {g : Game} {x y : Int} {yi xi : Fin 10}
    (hy : pyIdx y = some yi) (hx : pyIdx x = some xi) :
    cellI g x y = g.board yi xi := by
  unfold cellI
  rw [getCell_eq_some hy hx]

theorem pyIdx_total {i : Int} (h1 : -10 ≤ i) (h2 : i < 10) :
    ∃ v, pyIdx i = some v := by
  unfold pyIdx
  split_ifs with ha hb
  · exact ⟨_, rfl⟩
  · exact ⟨_, rfl⟩
  · omega

theorem pawnAtSpec_iff {g : Game} {pl : Int}
    (hplay : ∀ r c : Fin 10, (g.board r c).pawn ≠ none →
      (r : Nat) ≤ 8 ∧ (c : Nat) ≤ 8)
    {x y : Int} {yi xi : Fin 10} (hy : pyIdx y = some yi)
    (hx : pyIdx x = some xi) (hxm : -1 ≤ x) (hx9 : x ≤ 9)
    (hym : -1 ≤ y) (hy9 : y ≤ 9) :
    pawnAtSpec g pl x y ↔ (g.board yi xi).pawn = some pl := by
  constructor
  · rintro ⟨hx0, hx8, hy0, hy8, hpw⟩
    rwa [cellI_eq hy hx] at hpw
  · intro hpw
    have hb := hplay yi xi (by rw [hpw]; simp)
    have hy0 : 0 ≤ y := by
      rcases pyIdx_val hy with ⟨h1, _, _⟩ | ⟨_, h2, hv⟩
      · exact h1
      · omega
    have hy8 : y ≤ 8 := by
      rcases pyIdx_val hy with ⟨_, _, hv⟩ | ⟨_, h2, _⟩ <;> omega
    have hx0 : 0 ≤ x := by
      rcases pyIdx_val hx with ⟨h1, _, _⟩ | ⟨_, h2, hv⟩
      · exact h1
      · omega
    have hx8 : x ≤ 8 := by
      rcases pyIdx_val hx with ⟨_, _, hv⟩ | ⟨_, h2, _⟩ <;> omega
    refine ⟨hx0, hx8, hy0, hy8, ?_⟩
    rw [cellI_eq hy hx]
    exact hpw

/-- C9: on every reachable state with no winner, with the caller holding the
turn and the target in bounds, `move_pawn` raises nothing, and it returns
`True` exactly when the spec-side predicate `specMoveAllowed` holds. -/
theorem claim9_move_iff (acts : List Act) (c r : Int)
    (hc0 : 0 ≤ c) (hc8 : c ≤ 8) (hr0 : 0 ≤ r) (hr8 : r ≤ 8)
    (hw : (run initialGame acts).winner = none)
    (pl : Int) (hpl : pl = (run initialGame acts).currentPlayer) :
    ∃ b gf, movePawn (run initialGame acts) (some pl) (c, r) = some (b, gf) ∧
      (b = true ↔ specMoveAllowed (run initialGame acts) pl c r) := by
  set g := run initialGame acts with hg
  obtain ⟨hplay, _, _, _⟩ := inv_reachable acts
  rw [← hg] at hplay
  obtain ⟨r0, hr0i⟩ := @pyIdx_total r (by omega) (by omega)
  obtain ⟨rm, hrmi⟩ := @pyIdx_total (r - 1) (by omega) (by omega)
  obtain ⟨rp, hrpi⟩ := @pyIdx_total (r + 1) (by omega) (by omega)
  obtain ⟨c0, hc0i⟩ := @pyIdx_total c (by omega) (by omega)
  obtain ⟨cm, hcmi⟩ := @pyIdx_total (c - 1) (by omega) (by omega)
  obtain ⟨cp, hcpi⟩ := @pyIdx_total (c + 1) (by omega) (by omega)
  have hguard : ¬(r < 0 ∨ r > 8 ∨ c < 0 ∨ r > 8 ∨ g.winner ≠ none ∨
      some pl ≠ some g.currentPlayer) := by
    push_neg
    exact ⟨by omega, by omega, by omega, by omega, hw, congrArg some hpl⟩
  have hd1 : (decide ((g.board rm c0).pawn = some pl) &&
        (g.board r0 c0).hSlot.isNone) = true ↔
      (pawnAtSpec g pl c (r - 1) ∧ (cellI g c r).hSlot = none) := by
    rw [Bool.and_eq_true, decide_eq_true_eq, Option.isNone_iff_eq_none,
      cellI_eq hr0i hc0i,
      pawnAtSpec_iff hplay hrmi hc0i (by omega) (by omega) (by omega) (by omega)]
  have hd2 : (decide ((g.board rp c0).pawn = some pl) &&
        (g.board rp c0).hSlot.isNone) = true ↔
      (pawnAtSpec g pl c (r + 1) ∧ (cellI g c (r + 1)).hSlot = none) := by
    rw [Bool.and_eq_true, decide_eq_true_eq, Option.isNone_iff_eq_none,
      cellI_eq hrpi hc0i,
      pawnAtSpec_iff hplay hrpi hc0i (by omega) (by omega) (by omega) (by omega)]
  have hd3 : (decide ((g.board r0 cm).pawn = some pl) &&
        (g.board r0 c0).vSlot.isNone) = true ↔
      (pawnAtSpec g pl (c - 1) r ∧ (cellI g c r).vSlot = none) := by
    rw [Bool.and_eq_true, decide_eq_true_eq, Option.isNone_iff_eq_none,
      cellI_eq hr0i hc0i,
      pawnAtSpec_iff hplay hr0i hcmi (by omega) (by omega) (by omega) (by omega)]
  have hd4 : (decide ((g.board r0 cp).pawn = some pl) &&
        (g.board r0 cp).vSlot.isNone) = true ↔
      (pawnAtSpec g pl (c + 1) r ∧ (cellI g (c + 1) r).vSlot = none) := by
    rw [Bool.and_eq_true, decide_eq_true_eq, Option.isNone_iff_eq_none,
      cellI_eq hr0i hcpi,
      pawnAtSpec_iff hplay hr0i hcpi (by omega) (by omega) (by omega) (by omega)]
  have hchain : movePawn g (some pl) (c, r) =
      (if (decide ((g.board rm c0).pawn = some pl) &&
            (g.board r0 c0).hSlot.isNone) = true then
        movePawnSuccess g (some pl) (c, r - 1) (c, r)
      else if (decide ((g.board rp c0).pawn = some pl) &&
            (g.board rp c0).hSlot.isNone) = true then
        movePawnSuccess g (some pl) (c, r + 1) (c, r)
      else if (decide ((g.board r0 cm).pawn = some pl) &&
            (g.board r0 c0).vSlot.isNone) = true then
        movePawnSuccess g (some pl) (c - 1, r) (c, r)
      else if (decide ((g.board r0 cp).pawn = some pl) &&
            (g.board r0 cp).vSlot.isNone) = true then
        movePawnSuccess g (some pl) (c + 1, r) (c, r)
      else some (false, g)) := by
    simp only [movePawn]
    rw [if_neg hguard]
    rw [mpCond1_eq hrmi hc0i hr0i, mpCond2_eq hrpi hc0i,
      mpCond3_eq hcmi hr0i hc0i, mpCond4_eq hcpi hr0i]
    simp only [Option.bind_eq_bind, Option.some_bind, Option.pure_def]
  rw [hchain]
  by_cases hb1 : (decide ((g.board rm c0).pawn = some pl) &&
      (g.board r0 c0).hSlot.isNone) = true
  · rw [if_pos hb1]
    obtain ⟨gf, hgf⟩ := @movePawnSuccess_total g (some pl) (c, r - 1) (c, r)
      r0 c0 rm c0 hr0i hc0i hrmi hc0i
    exact ⟨true, gf, hgf, iff_of_true rfl (Or.inl (hd1.mp hb1))⟩
  · rw [if_neg hb1]
    by_cases hb2 : (decide ((g.board rp c0).pawn = some pl) &&
        (g.board rp c0).hSlot.isNone) = true
    · rw [if_pos hb2]
      obtain ⟨gf, hgf⟩ := @movePawnSuccess_total g (some pl) (c, r + 1) (c, r)
        r0 c0 rp c0 hr0i hc0i hrpi hc0i
      exact ⟨true, gf, hgf, iff_of_true rfl (Or.inr (Or.inl (hd2.mp hb2)))⟩
    · rw [if_neg hb2]
      by_cases hb3 : (decide ((g.board r0 cm).pawn = some pl) &&
          (g.board r0 c0).vSlot.isNone) = true
      · rw [if_pos hb3]
        obtain ⟨gf, hgf⟩ := @movePawnSuccess_total g (some pl) (c - 1, r) (c, r)
          r0 c0 r0 cm hr0i hc0i hr0i hcmi
        exact ⟨true, gf, hgf, iff_of_true rfl (Or.inr (Or.inr (Or.inl (hd3.mp hb3))))⟩
      · rw [if_neg hb3]
        by_cases hb4 : (decide ((g.board r0 cp).pawn = some pl) &&
            (g.board r0 cp).vSlot.isNone) = true
        · rw [if_pos hb4]
          obtain ⟨gf, hgf⟩ := @movePawnSuccess_total g (some pl) (c + 1, r) (c, r)
            r0 c0 r0 cp hr0i hc0i hr0i hcpi
          exact ⟨true, gf, hgf,
            iff_of_true rfl (Or.inr (Or.inr (Or.inr (hd4.mp hb4))))⟩
        · rw [if_neg hb4]
          refine ⟨false, g, rfl, iff_of_false (by simp) ?_⟩
          rintro (hs | hs | hs | hs)
          · exact hb1 (hd1.mpr hs)
          · exact hb2 (hd2.mpr hs)
          · exact hb3 (hd3.mpr hs)
          · exact hb4 (hd4.mpr hs)

/-! ### Concrete games and action sequences used by the claim theorems -/

/-- Player 2 walks from (4,8) to (0,8) while player 1 shuttles between
(4,0) and (4,1); the final move reaches player 2's goal column 0. -/
def c2acts : List Act :=
  [Act.move (some 1) (4, 1), Act.move (some 2) (3, 8),
   Act.move (some 1) (4, 0), Act.move (some 2) (2, 8),
   Act.move (some 1) (4, 1), Act.move (some 2) (1, 8),
   Act.move (some 1) (4, 0), Act.move (some 2) (0, 8)]

/-- Player 2 marches up column 4 while player 1 shuttles between (4,0) and
(4,1); the last move steps onto the cell occupied by player 1's pawn. -/
def captureActs : List Act :=
  [Act.move (some 1) (4, 1), Act.move (some 2) (4, 7),
   Act.move (some 1) (4, 0), Act.move (some 2) (4, 6),
   Act.move (some 1) (4, 1), Act.move (some 2) (4, 5),
   Act.move (some 1) (4, 0), Act.move (some 2) (4, 4),
   Act.move (some 1) (4, 1), Act.move (some 2) (4, 3),
   Act.move (some 1) (4, 0), Act.move (some 2) (4, 2),
   Act.move (some 1) (4, 1), Act.move (some 2) (4, 1)]

/-- A fresh game with the winner field already set, for exercising the
game-over guard. -/
def gameWon : Game := { initialGameX with winner := some 1 }

/-- A fresh game whose player-1 reserve is exhausted. -/
def reserveZeroGame : Game := { initialGameX with p1FenceCount := 0 }

/-- The state after player 1's opening fence at (4,4). -/
def fenceOneGame : Game := applyAct initialGameX (Act.fence (some 1) "h" (4, 4))

/-! ### The claim theorems -/

/-- C1: the bounds guards of `move_pawn` and `place_fence` test `coord[1]`
twice and never test `coord[0] > 8`, so column 9 passes the guard: on a
fresh game `move_pawn(1, (9, 0))` raises `IndexError` (evaluating
`board[0][10]`), and `place_fence(1, "h", (9, 5))` stores a fence in the
sentinel column and returns `True` — instead of both returning `False`
with the state unchanged. -/
theorem claim1_bounds_bug :
    movePawn initialGame (some 1) (9, 0) = none ∧
    (placeFence initialGame (some 1) "h" (9, 5)).map Prod.fst =
      some (some true) := by
  refine ⟨?_, ?_⟩ <;> rw [initialGame_eq] <;> decide

/-- C2: when player 2 reaches column 0, `move_pawn_success` executes
`self._winner = 0` rather than `2`; the winning move returns `True`, but
the stored winner is `0`, so `is_winner(2)` stays `False`. -/
theorem claim2_winner_zero_bug :
    (run initialGame c2acts).winner = some 0 ∧
    isWinner (run initialGame c2acts) (some 2) = false ∧
    (movePawn (run initialGame (c2acts.take 7)) (some 2) (0, 8)).map Prod.fst =
      some true := by
  refine ⟨?_, ?_, ?_⟩ <;> rw [initialGame_eq] <;> decide

/-- C3 counterexample: `move_pawn` never checks that the target cell is
empty, so a pawn can move onto the opponent's cell and overwrite it; after
`captureActs` player 1 has no pawn on the board at all, refuting
"each player's pawn occupies exactly one cell". -/
theorem claim3_counterexample :
    pawnCount (run initialGame captureActs) 1 = 0 ∧
    pawnCount (run initialGame captureActs) 2 = 1 := by
  refine ⟨?_, ?_⟩ <;> rw [initialGame_eq] <;> decide

/-- C3 amended: in every reachable state each player's pawn occupies at
most one cell (no operation duplicates a pawn), but a successful move onto
the opponent's cell removes the opponent's pawn, so "exactly one" fails. -/
theorem claim3_amended (acts : List Act) (p : Int) :
    pawnCount (run initialGame acts) p ≤ 1 := by
  obtain ⟨_, _, huniq, _⟩ := inv_reachable acts
  unfold pawnCount
  apply Finset.card_le_one.mpr
  intro a ha b hb
  simp only [Finset.mem_filter, Finset.mem_univ, true_and] at ha hb
  have h := huniq a.1 a.2 b.1 b.2 (by rw [ha]; simp) (ha.trans hb.symm)
  exact Prod.ext h.1 h.2

/-- C4: after construction the reserves are 10, the turn is player 1's and
the pawns sit at (4,0) and (4,8); the top edge (row 0) and both side edges
(columns 0 and 9, rows 0–8) carry fences, BUT the bottom sentinel row 9
holds no horizontal fences at all — the setup loop's calls for row 9 are
rejected by `place_fence`'s own bounds guard, contradicting the docstring
"The edges of the game board are initialized as fences". -/
theorem claim4_init_facts :
    (initialGame.board ⟨9, by omega⟩ ⟨0, by omega⟩).hSlot = none ∧
    (∀ cc : Fin 10, (initialGame.board ⟨9, by omega⟩ cc).hSlot = none) ∧
    (∀ cc : Fin 10, (initialGame.board ⟨0, by omega⟩ cc).hSlot ≠ none) ∧
    (∀ rr : Fin 10, (rr : Nat) ≤ 8 →
      (initialGame.board rr ⟨0, by omega⟩).vSlot ≠ none ∧
      (initialGame.board rr ⟨9, by omega⟩).vSlot ≠ none) ∧
    (initialGame.board ⟨0, by omega⟩ ⟨4, by omega⟩).pawn = some 1 ∧
    (initialGame.board ⟨8, by omega⟩ ⟨4, by omega⟩).pawn = some 2 ∧
    initialGame.p1FenceCount = 10 ∧ initialGame.p2FenceCount = 10 ∧
    initialGame.currentPlayer = 1 := by
  rw [initialGame_eq]
  decide

/-- C5 counterexample: a setup-style call `place_fence(None, "h", (0, 5))`
on a fresh game stores the fence (the slot becomes occupied) yet returns
Python `None`, not `True`. -/
theorem claim5_counterexample :
    (placeFence initialGame none "h" (0, 5)).map Prod.fst = some none ∧
    (placeFence initialGame none "h" (0, 5)).map
      (fun x => ((x.2.board ⟨5, by omega⟩ ⟨0, by omega⟩).hSlot).isSome) =
      some true := by
  refine ⟨?_, ?_⟩ <;> rw [initialGame_eq] <;> decide

/-- C5 amended: every `place_fence` call that actually stores a fence
(i.e. changes the state) returns `True` when called with a non-null
player, but returns Python `None` for setup calls with the null player. -/
theorem claim5_amended (g : Game) (p : Option Int) (o : String) (c r : Int)
    (res : Option Bool) (gf : Game)
    (h : placeFence g p o (c, r) = some (res, gf)) (hch : gf ≠ g) :
    (p ≠ none → res = some true) ∧ (p = none → res = none) := by
  rcases placeFence_some h with ⟨_, rfl⟩ | ⟨_, hres, _⟩
  · exact absurd rfl hch
  · constructor
    · intro hpn
      rw [hres, if_neg hpn]
    · intro hp
      rw [hres, if_pos hp]

theorem claim5_witness :
    ((some 1 : Option Int) ≠ none → (some true : Option Bool) = some true) ∧
    ((some 1 : Option Int) = none → (some true : Option Bool) = none) :=
  claim5_amended initialGame (some 1) "h" 4 4 (some true) fenceOneGame
    (by rw [initialGame_eq]; decide) (by rw [initialGame_eq]; decide)

/-- C6: with the winner field set, both public mutators fail fast on the
`self._winner is not None` guard: they return `False` and leave the whole
state (winner included) unchanged, for every caller and argument. -/
theorem claim6_game_over_rejects (g : Game) (hw : g.winner ≠ none) :
    (∀ p coord, movePawn g p coord = some (false, g)) ∧
    (∀ p o coord, placeFence g p o coord = some (some false, g)) := by
  constructor
  · intro p coord
    exact movePawn_guard (Or.inr (Or.inr (Or.inr (Or.inr (Or.inl hw)))))
  · intro p o coord
    exact placeFence_guard (Or.inr (Or.inr (Or.inr (Or.inr (Or.inl hw)))))

theorem claim6_witness :
    movePawn gameWon (some 2) (4, 7) = some (false, gameWon) ∧
    placeFence gameWon (some 1) "h" (3, 3) = some (some false, gameWon) :=
  ⟨(claim6_game_over_rejects gameWon (by decide)).1 (some 2) (4, 7),
   (claim6_game_over_rejects gameWon (by decide)).2 (some 1) "h" (3, 3)⟩

theorem applyAct_counts {g : Game} {a : Act}
    (h1 : 0 ≤ g.p1FenceCount) (h2 : 0 ≤ g.p2FenceCount) :
    0 ≤ (applyAct g a).p1FenceCount ∧ 0 ≤ (applyAct g a).p2FenceCount := by
  cases a with
  | move p coord =>
    obtain ⟨c, r⟩ := coord
    dsimp only [applyAct]
    cases hm : movePawn g p (c, r) with
    | none => exact ⟨h1, h2⟩
    | some x =>
      obtain ⟨b, gf⟩ := x
      rcases movePawn_some hm with ⟨_, rfl⟩ | ⟨_, _, prev, _, hmps⟩
      · exact ⟨h1, h2⟩
      · have hparts := movePawnSuccess_parts hmps
        rw [hparts.2.1, hparts.2.2.1]
        exact ⟨h1, h2⟩
  | fence p o coord =>
    obtain ⟨c, r⟩ := coord
    dsimp only [applyAct]
    cases hm : placeFence g p o (c, r) with
    | none => exact ⟨h1, h2⟩
    | some x =>
      obtain ⟨res, gf⟩ := x
      rcases placeFence_some hm with ⟨_, rfl⟩ |
        ⟨⟨_, _, _, _, _, hz1, hz2⟩, _, ri, ci, cell2, _, _, _, hgf⟩
      · exact ⟨h1, h2⟩
      · subst hgf
        rw [fencePlacedSuccess_snd]
        constructor
        · dsimp only
          split_ifs with hp
          · have h0 : g.p1FenceCount ≠ 0 := fun h0 => hz1 ⟨hp, h0⟩
            omega
          · exact h1
        · dsimp only
          split_ifs with hp
          · have h0 : g.p2FenceCount ≠ 0 := fun h0 => hz2 ⟨hp, h0⟩
            omega
          · exact h2

theorem run_counts_nonneg_aux (acts : List Act) :
    ∀ g : Game, 0 ≤ g.p1FenceCount → 0 ≤ g.p2FenceCount →
      0 ≤ (run g acts).p1FenceCount ∧ 0 ≤ (run g acts).p2FenceCount := by
  induction acts with
  | nil => exact fun g h1 h2 => ⟨h1, h2⟩
  | cons a rest ih =>
    intro g h1 h2
    have hstep := @applyAct_counts g a h1 h2
    exact ih (applyAct g a) hstep.1 hstep.2

/-- C7: both reserves start at 10; `move_pawn` never touches them; a
successful gameplay placement (`True` returned) by player 1 or 2 decrements
exactly that player's reserve by one and only happens with a non-zero
reserve; every other outcome leaves both reserves unchanged; and a
placement attempted by a player whose reserve is 0 returns `False` with no
state change. -/
theorem claim7_fence_reserves :
    (initialGame.p1FenceCount = 10 ∧ initialGame.p2FenceCount = 10) ∧
    (∀ (g : Game) (p : Option Int) (c r : Int) (b : Bool) (gf : Game),
      movePawn g p (c, r) = some (b, gf) →
      gf.p1FenceCount = g.p1FenceCount ∧ gf.p2FenceCount = g.p2FenceCount) ∧
    (∀ (g : Game) (p : Option Int) (o : String) (c r : Int)
        (res : Option Bool) (gf : Game),
      placeFence g p o (c, r) = some (res, gf) →
      ((p = some 1 ∧ res = some true) →
        gf.p1FenceCount = g.p1FenceCount - 1 ∧ g.p1FenceCount ≠ 0 ∧
          gf.p2FenceCount = g.p2FenceCount) ∧
      ((p = some 2 ∧ res = some true) →
        gf.p2FenceCount = g.p2FenceCount - 1 ∧ g.p2FenceCount ≠ 0 ∧
          gf.p1FenceCount = g.p1FenceCount) ∧
      (¬(p = some 1 ∧ res = some true) → gf.p1FenceCount = g.p1FenceCount) ∧
      (¬(p = some 2 ∧ res = some true) → gf.p2FenceCount = g.p2FenceCount)) ∧
    (∀ (g : Game) (p : Option Int) (o : String) (coord : Int × Int),
      ((p = some 1 ∧ g.p1FenceCount = 0) ∨ (p = some 2 ∧ g.p2FenceCount = 0)) →
      placeFence g p o coord = some (some false, g)) ∧
    (∀ acts : List Act, 0 ≤ (run initialGame acts).p1FenceCount ∧
      0 ≤ (run initialGame acts).p2FenceCount) := by
  refine ⟨⟨?_, ?_⟩, ?_, ?_, ?_, ?_⟩
  · rw [initialGame_eq]; rfl
  · rw [initialGame_eq]; rfl
  · intro g p c r b gf h
    rcases movePawn_some h with ⟨_, rfl⟩ | ⟨_, _, prev, _, hmps⟩
    · exact ⟨rfl, rfl⟩
    · have hparts := movePawnSuccess_parts hmps
      exact ⟨hparts.2.1, hparts.2.2.1⟩
  · intro g p o c r res gf h
    rcases placeFence_some h with ⟨hres, rfl⟩ |
      ⟨⟨_, _, _, _, _, hz1, hz2⟩, hres, ri, ci, cell2, _, _, _, hgf⟩
    · subst hres
      refine ⟨?_, ?_, fun _ => rfl, fun _ => rfl⟩
      · rintro ⟨_, hx⟩
        exact absurd hx (by simp)
      · rintro ⟨_, hx⟩
        exact absurd hx (by simp)
    · subst hgf
      rw [fencePlacedSuccess_snd]
      refine ⟨?_, ?_, ?_, ?_⟩
      · rintro ⟨hp1, _⟩
        subst hp1
        exact ⟨by simp, fun h0 => hz1 ⟨rfl, h0⟩, by simp⟩
      · rintro ⟨hp2, _⟩
        subst hp2
        exact ⟨by simp, fun h0 => hz2 ⟨rfl, h0⟩, by simp⟩
      · intro hn
        have hp1 : p ≠ some 1 := by
          intro hp
          apply hn
          refine ⟨hp, ?_⟩
          rw [hres, if_neg (by rw [hp]; simp)]
        dsimp only
        rw [if_neg hp1]
      · intro hn
        have hp2 : p ≠ some 2 := by
          intro hp
          apply hn
          refine ⟨hp, ?_⟩
          rw [hres, if_neg (by rw [hp]; simp)]
        dsimp only
        rw [if_neg hp2]
  · intro g p o coord hz
    exact placeFence_reserve_zero hz
  · intro acts
    exact run_counts_nonneg_aux acts initialGame (by rw [initialGame_eq]; decide)
      (by rw [initialGame_eq]; decide)

theorem claim7_witness :
    placeFence reserveZeroGame (some 1) "h" (3, 3) =
      some (some false, reserveZeroGame) :=
  claim7_fence_reserves.2.2.2.1 reserveZeroGame (some 1) "h" (3, 3)
    (Or.inl ⟨rfl, rfl⟩)

/-- C8: the turn holder of every reachable state is 1 or 2; a successful
move or gameplay fence placement is always by the current player and flips
the turn to the other player; an action by the non-current player fails
with no state change; and every `False`-returning call leaves the state
(hence the turn) unchanged — so successful gameplay actions strictly
alternate between the two players. -/
theorem claim8_turn_alternation :
    (∀ acts : List Act, (run initialGame acts).currentPlayer = 1 ∨
      (run initialGame acts).currentPlayer = 2) ∧
    (∀ (g : Game) (p : Option Int) (c r : Int) (gf : Game),
      movePawn g p (c, r) = some (true, gf) →
      p = some g.currentPlayer ∧
      (g.currentPlayer = 1 → gf.currentPlayer = 2) ∧
      (g.currentPlayer = 2 → gf.currentPlayer = 1)) ∧
    (∀ (g : Game) (p : Option Int) (o : String) (c r : Int) (gf : Game),
      placeFence g p o (c, r) = some (some true, gf) →
      p = some g.currentPlayer ∧
      (g.currentPlayer = 1 → gf.currentPlayer = 2) ∧
      (g.currentPlayer = 2 → gf.currentPlayer = 1)) ∧
    (∀ (g : Game) (p : Option Int) (coord : Int × Int),
      p ≠ some g.currentPlayer → movePawn g p coord = some (false, g)) ∧
    (∀ (g : Game) (p : Option Int) (o : String) (coord : Int × Int),
      p ≠ none → p ≠ some g.currentPlayer →
      placeFence g p o coord = some (some false, g)) ∧
    (∀ (g : Game) (p : Option Int) (c r : Int) (gf : Game),
      movePawn g p (c, r) = some (false, gf) → gf = g) ∧
    (∀ (g : Game) (p : Option Int) (o : String) (c r : Int) (gf : Game),
      placeFence g p o (c, r) = some (some false, gf) → gf = g) := by
  refine ⟨?_, ?_, ?_, ?_, ?_, ?_, ?_⟩
  · intro acts
    exact (inv_reachable acts).2.2.2
  · intro g p c r gf h
    rcases movePawn_some h with ⟨hb, _⟩ | ⟨_, ⟨_, _, _, _, hp⟩, prev, _, hmps⟩
    · exact absurd hb (by simp)
    · have hcurf := (movePawnSuccess_parts hmps).2.2.2.1
      refine ⟨hp, ?_, ?_⟩
      · intro h1
        rw [hcurf, hp, h1]
        simp
      · intro h2
        rw [hcurf, hp, h2]
        simp
  · intro g p o c r gf h
    rcases placeFence_some h with ⟨hres, _⟩ |
      ⟨⟨_, _, _, _, hturn, _, _⟩, hres, ri, ci, cell2, _, _, _, hgf⟩
    · exact absurd hres (by simp)
    · have hpn : p ≠ none := by
        intro hp
        rw [if_pos hp] at hres
        exact absurd hres (by simp)
      have hp : p = some g.currentPlayer := by
        rcases hturn with h1 | h1
        · exact absurd h1 hpn
        · exact h1
      subst hgf
      rw [fencePlacedSuccess_snd]
      refine ⟨hp, ?_, ?_⟩
      · intro h1
        dsimp only
        rw [hp, h1]
        simp
      · intro h2
        dsimp only
        rw [hp, h2]
        simp
  · intro g p coord hp
    exact movePawn_guard (Or.inr (Or.inr (Or.inr (Or.inr (Or.inr hp)))))
  · intro g p o coord hpn hp
    exact placeFence_guard (Or.inr (Or.inr (Or.inr (Or.inr (Or.inr ⟨hpn, hp⟩)))))
  · intro g p c r gf h
    rcases movePawn_some h with ⟨_, rfl⟩ | ⟨hb, _, _, _, _⟩
    · rfl
    · exact absurd hb (by simp)
  · intro g p o c r gf h
    rcases placeFence_some h with ⟨_, rfl⟩ | ⟨_, hres, _⟩
    · rfl
    · by_cases hp : p = none
      · rw [if_pos hp] at hres
        exact absurd hres (by simp)
      · rw [if_neg hp] at hres
        exact absurd hres (by simp)

theorem claim8_witness :
    movePawn initialGame (some 2) (5, 5) = some (false, initialGame) :=
  claim8_turn_alternation.2.2.2.1 initialGame (some 2) (5, 5)
    (by rw [initialGame_eq]; decide)

theorem claim9_witness :
    ∃ b gf, movePawn (run initialGame []) (some 1) ((4 : Int), (1 : Int)) =
      some (b, gf) ∧
      (b = true ↔ specMoveAllowed (run initialGame []) 1 4 1) :=
  claim9_move_iff [] 4 1 (by norm_num) (by norm_num) (by norm_num) (by norm_num)
    (by rw [initialGame_eq]; rfl) 1 (by rw [initialGame_eq]; rfl)

/-- C10: `is_winner` compares the stored winner to the queried value by
raw equality, so in any state with no winner decided, querying the null
player returns `True` (Python `None == None`). -/
theorem claim10_is_winner_none (g : Game) (h : g.winner = none) :
    isWinner g none = true := by
  unfold isWinner
  rw [h]
  rfl

theorem claim10_witness : isWinner initialGame none = true :=
  claim10_is_winner_none initialGame (by rw [initialGame_eq]; rfl)
